import Mathlib

/-!
# Verification of the sports-highlights ingestion pipeline

Shallow embedding of the repository `Auto-bot-sports-heighlights`
(files `app/pipeline.py`, `app/mediaconvert_client.py`, `app/logger.py`,
`app/config.py`) together with theorems settling the design-spec claims.

External collaborators (the HTTP API, the blob store, the transcode
provider, the clock, the temporary-file allocator and the random number
generator) are modelled as explicit inputs: an `Env` value carries the
outcome of every remote interaction, a natural number carries the random
draw, and a `DateTime6` value carries the wall-clock time observed at log
upload.  Machine behaviour of the Python runtime (truthiness, string
methods, `pathlib.Path.name`) is translated directly from its documented
semantics.
-/

namespace Pipeline

/-! ## The highlights document

`HighlightsDocument` is an arbitrarily nested tree of maps, sequences,
strings, numbers, booleans and null, exactly the values `response.json()`
can produce.  The nested lists are unfolded into a mutual inductive so
that structural induction is available. -/

mutual

inductive Doc : Type where
  | map : DEntries → Doc
  | seq : DItems → Doc
  | str : String → Doc
  | num : Int → Doc
  | boolv : Bool → Doc
  | null : Doc

inductive DItems : Type where
  | nil : DItems
  | cons : Doc → DItems → DItems

inductive DEntries : Type where
  | nil : DEntries
  | cons : String → Doc → DEntries → DEntries

end

/-- Model of `v.endswith(".mp4") or v.startswith("http")` from
`pick_random_video_from_json` (pipeline.py line 49): the last four
characters are `.mp4`, or the first four characters are `http`. -/
def qualifies (s : String) : Bool :=
  (s.data.reverse.take 4 == ".mp4".data.reverse) || (s.data.take 4 == "http".data)

/-! ## The selector walk (pipeline.py lines 46-57)

The source`s inner `walk` appends to a `candidates` list; here each call
returns the sub-list it contributes, in traversal order.  A dict value
that is a qualifying string is appended and not walked; every other
value is walked (`walk` on a non-container contributes nothing). -/

mutual

def walk : Doc → List String
  | .map kvs => walkEntries kvs
  | .seq its => walkItems its
  | .str _ => []
  | .num _ => []
  | .boolv _ => []
  | .null => []

def walkItems : DItems → List String
  | .nil => []
  | .cons d rest => walk d ++ walkItems rest

def walkEntries : DEntries → List String
  | .nil => []
  | .cons _ (.str s) rest =>
      (if qualifies s then [s] else walk (.str s)) ++ walkEntries rest
  | .cons _ (.map kvs) rest => walk (.map kvs) ++ walkEntries rest
  | .cons _ (.seq its) rest => walk (.seq its) ++ walkEntries rest
  | .cons _ (.num n) rest => walk (.num n) ++ walkEntries rest
  | .cons _ (.boolv b) rest => walk (.boolv b) ++ walkEntries rest
  | .cons _ .null rest => walk .null ++ walkEntries rest

end

/-- Model of `pick_random_video_from_json` (pipeline.py lines 42-60).
`random.choice` draws a uniformly random element of the candidate list;
the draw is externalised as an index `r` reduced modulo the length. -/
def pick_random_video_from_json (doc : Doc) (r : Nat) : Option String :=
  let candidates := walk doc
  if candidates.isEmpty then none
  else candidates.get? (r % candidates.length)

/-! ## Specification-side counts and predicates for the selector

`qualOcc d s` follows the amended specification wording: the number of
occurrences of the string `s` as a qualifying map value anywhere in `d`,
where a qualifying occurrence is counted once and its content is not
traversed further.  `containsQual d` follows the original claim wording:
`d` contains at least one qualifying string anywhere (map value,
sequence element, or the root). -/

mutual

def qualOcc : Doc → String → Nat
  | .map kvs, s => qualOccE kvs s
  | .seq its, s => qualOccI its s
  | .str _, _ => 0
  | .num _, _ => 0
  | .boolv _, _ => 0
  | .null, _ => 0

def qualOccI : DItems → String → Nat
  | .nil, _ => 0
  | .cons d rest, s => qualOcc d s + qualOccI rest s

def qualOccE : DEntries → String → Nat
  | .nil, _ => 0
  | .cons _ v rest, s =>
      (match v with
       | .str t => if t = s ∧ qualifies t then 1 else 0
       | _ => 0) + qualOcc v s + qualOccE rest s

end

mutual

def containsQual : Doc → Bool
  | .map kvs => containsQualE kvs
  | .seq its => containsQualI its
  | .str s => qualifies s
  | .num _ => false
  | .boolv _ => false
  | .null => false

def containsQualI : DItems → Bool
  | .nil => false
  | .cons d rest => containsQual d || containsQualI rest

def containsQualE : DEntries → Bool
  | .nil => false
  | .cons _ v rest => containsQual v || containsQualE rest

end

/-! ## Fuel-indexed walk

The Python `walk` is a plain recursive procedure; to state that the
traversal terminates on every finite document it is replayed with an
explicit fuel that decreases at every nested call, returning `none` on
exhaustion.  `sizeD` bounds the recursion depth. -/

mutual

def sizeD : Doc → Nat
  | .map kvs => 1 + sizeE kvs
  | .seq its => 1 + sizeI its
  | .str _ => 1
  | .num _ => 1
  | .boolv _ => 1
  | .null => 1

def sizeI : DItems → Nat
  | .nil => 1
  | .cons d rest => 1 + sizeD d + sizeI rest

def sizeE : DEntries → Nat
  | .nil => 1
  | .cons _ v rest => 1 + sizeD v + sizeE rest

end

mutual

def walkF : Nat → Doc → Option (List String)
  | 0, _ => none
  | n+1, .map kvs => walkFE n kvs
  | n+1, .seq its => walkFI n its
  | _+1, .str _ => some []
  | _+1, .num _ => some []
  | _+1, .boolv _ => some []
  | _+1, .null => some []

def walkFI : Nat → DItems → Option (List String)
  | 0, _ => none
  | _+1, .nil => some []
  | n+1, .cons d rest =>
      match walkF n d, walkFI n rest with
      | some a, some b => some (a ++ b)
      | _, _ => none

def walkFE : Nat → DEntries → Option (List String)
  | 0, _ => none
  | _+1, .nil => some []
  | n+1, .cons _ (.str s) rest =>
      if qualifies s then
        match walkFE n rest with
        | some b => some (s :: b)
        | none => none
      else
        match walkF n (.str s), walkFE n rest with
        | some a, some b => some (a ++ b)
        | _, _ => none
  | n+1, .cons _ (.map kvs) rest =>
      match walkF n (.map kvs), walkFE n rest with
      | some a, some b => some (a ++ b)
      | _, _ => none
  | n+1, .cons _ (.seq its) rest =>
      match walkF n (.seq its), walkFE n rest with
      | some a, some b => some (a ++ b)
      | _, _ => none
  | n+1, .cons _ (.num m) rest =>
      match walkF n (.num m), walkFE n rest with
      | some a, some b => some (a ++ b)
      | _, _ => none
  | n+1, .cons _ (.boolv b) rest =>
      match walkF n (.boolv b), walkFE n rest with
      | some a, some b => some (a ++ b)
      | _, _ => none
  | n+1, .cons _ .null rest =>
      match walkF n .null, walkFE n rest with
      | some a, some b => some (a ++ b)
      | _, _ => none

end

/-! ## Path names

`pathlib.Path(p).name` returns the last non-empty slash-separated
segment of `p` (empty when there is none).  `lastSegAux` scans the
characters once, keeping the current segment (reversed) and the best
segment seen so far. -/

def lastSegAux : List Char → List Char → List Char → List Char
  | [], cur, best => if cur = [] then best else cur.reverse
  | c :: rest, cur, best =>
      if c = '/' then lastSegAux rest [] (if cur = [] then best else cur.reverse)
      else lastSegAux rest (c :: cur) best

/-- Model of `pathlib.Path(p).name` for the plain paths and URLs this
pipeline feeds it: the last non-empty segment of the slash-separated
string, or the empty string. -/
def pathName (p : String) : String :=
  String.mk (lastSegAux p.data [] [])

/-! ## Timestamps

`datetime.now().strftime("%Y%m%d_%H%M%S")` (pipeline.py line 92).  Only
the formatting is modelled; the clock reading is an input. -/

structure DateTime6 where
  year : Nat
  month : Nat
  day : Nat
  hour : Nat
  minute : Nat
  second : Nat
deriving DecidableEq

/-- Two-digit zero-padded decimal, as strftime prints in-range field
values. -/
def pad2 (n : Nat) : String :=
  String.mk [Nat.digitChar (n / 10 % 10), Nat.digitChar (n % 10)]

/-- Four-digit zero-padded decimal, as strftime prints in-range years. -/
def pad4 (n : Nat) : String :=
  String.mk [Nat.digitChar (n / 1000 % 10), Nat.digitChar (n / 100 % 10),
             Nat.digitChar (n / 10 % 10), Nat.digitChar (n % 10)]

/-- Model of `strftime("%Y%m%d_%H%M%S")` on a clock reading. -/
def fmtTS (t : DateTime6) : String :=
  pad4 t.year ++ pad2 t.month ++ pad2 t.day ++ "_" ++
  pad2 t.hour ++ pad2 t.minute ++ pad2 t.second

/-! ## The orchestrator state

`Config` is the immutable configuration snapshot read by `config.py`
(league, date, host, optional buckets, region).  `Env` carries the
outcome of every external interaction of one run: the parsed fetch
response (or `none` when `fetch_highlights` caught an error and returned
`None`), the download outcome, the outcome of each S3 put, the error
texts the environment produces, and the temporary names handed out by
`tempfile`.  S3 put failures are modelled as the `botocore`
`ClientError` that `upload_file_to_s3` and `upload_logs` catch. -/

structure Config where
  league : String
  date : String
  rapidapiHost : String
  metadataBucket : Option String
  videosBucket : Option String
  logsBucket : Option String
  region : String
deriving DecidableEq

inductive PutOutcome : Type where
  | ok : PutOutcome
  | clientError : PutOutcome
deriving DecidableEq

structure Env where
  fetchResult : Option Doc
  fetchErrIsHttp : Bool
  fetchErr : String
  downloadOk : Bool
  downloadErr : String
  metadataPut : PutOutcome
  metaPutErr : String
  videoPut : PutOutcome
  videoPutErr : String
  logPut : PutOutcome
  logPutErr : String
  metaTmpFile : String
  tmpdir : String

inductive Sev : Type where
  | info : Sev
  | warn : Sev
  | error : Sev
deriving DecidableEq

abbrev Event := Sev × String

inductive PutKind : Type where
  | metadata : PutKind
  | video : PutKind
  | log : PutKind
deriving DecidableEq

/-- One attempted S3 object write: which call site issued it, where it
went, and whether the provider accepted it. -/
structure PutRec where
  kind : PutKind
  bucket : String
  key : String
  /-- The object body for `put_object` calls; `none` for `upload_file`
  calls, whose body is a local file. -/
  body : Option String
  outcome : PutOutcome
deriving DecidableEq

inductive RunOutcome : Type where
  | success : RunOutcome
  | failure : String → RunOutcome
deriving DecidableEq

/-- Observable trace of one `main()` run: the chronological logger
calls, the attempted S3 writes, the string handed to `upload_logs`, the
final branch taken, and whether `main` itself propagated an
exception. -/
structure RunTrace where
  events : List Event
  puts : List PutRec
  logArg : String
  outcome : RunOutcome
  raised : Bool
deriving DecidableEq

/-- Python truthiness on a parsed JSON value: `not x` holds exactly for
empty containers, the empty string, zero, `False` and `None`. -/
def falsy : Doc → Bool
  | .map .nil => true
  | .seq .nil => true
  | .str "" => true
  | .num 0 => true
  | .boolv false => true
  | .null => true
  | _ => false

def metaKey (cfg : Config) : String :=
  "highlights/" ++ cfg.league ++ "/" ++ cfg.date ++ "/highlights.json"

def videoKeyOf (cfg : Config) (fname : String) : String :=
  "incoming/" ++ cfg.league ++ "/" ++ cfg.date ++ "/" ++ fname

def logKey (now : DateTime6) : String :=
  "pipeline_log_" ++ fmtTS now ++ ".txt"

/-- Events of `fetch_highlights` (pipeline.py lines 21-40): the request
is logged, then either the success message or the error of whichever
except branch ran; both branches return `None`, modelled as
`env.fetchResult = none`. -/
def fetchEvents (cfg : Config) (env : Env) : List Event :=
  let url := "https://" ++ cfg.rapidapiHost ++ "/football.league?league=" ++
             cfg.league ++ "&date=" ++ cfg.date
  (Sev.info, "Fetching highlights from " ++ url) ::
    match env.fetchResult with
    | some _ => [(Sev.info, "Highlights fetched successfully")]
    | none =>
        if env.fetchErrIsHttp then
          [(Sev.error, "HTTP error fetching highlights: " ++ env.fetchErr)]
        else
          [(Sev.error, "Error fetching highlights: " ++ env.fetchErr)]

/-- Step 2 of `main` (pipeline.py lines 109-115): when a metadata bucket
is configured, write the document to a temp file and call
`upload_file_to_s3`, which catches `ClientError`. -/
def metaStep (cfg : Config) (env : Env) : List Event × List PutRec :=
  match cfg.metadataBucket with
  | none => ([], [])
  | some b =>
      match env.metadataPut with
      | .ok =>
          ([(Sev.info, "Uploaded " ++ env.metaTmpFile ++ " to s3://" ++ b ++ "/" ++ metaKey cfg)],
           [⟨.metadata, b, metaKey cfg, none, .ok⟩])
      | .clientError =>
          ([(Sev.error, "Failed to upload " ++ env.metaTmpFile ++ " to S3: " ++ env.metaPutErr)],
           [⟨.metadata, b, metaKey cfg, none, .clientError⟩])

/-- Step 4 of `main` (pipeline.py lines 122-125): `download_video`
catches every exception, logs, and returns `None`, which `main`
ignores.  The local file exists afterwards exactly when the download
succeeded. -/
def downloadEvents (env : Env) (url localPath : String) : List Event :=
  if env.downloadOk then
    [(Sev.info, "Downloading video " ++ url),
     (Sev.info, "Video downloaded to " ++ localPath)]
  else
    [(Sev.info, "Downloading video " ++ url),
     (Sev.error, "Failed to download video: " ++ env.downloadErr)]

/-- Step 5 of `main` (pipeline.py lines 127-130): when a video bucket is
configured, `upload_file_to_s3` is called on the local path.  A missing
local file makes `boto3.upload_file` raise a file-not-found error that
the `except ClientError` clause does not catch, so it propagates to the
`except` block of `main`; a provider-side failure is a `ClientError`
and is swallowed. -/
def videoStep (cfg : Config) (env : Env) (localPath : String) :
    List Event × List PutRec × Except String Unit :=
  match cfg.videosBucket with
  | none => ([], [], .ok ())
  | some b =>
      let key := videoKeyOf cfg (pathName localPath)
      if env.downloadOk then
        match env.videoPut with
        | .ok =>
            ([(Sev.info, "Uploaded " ++ localPath ++ " to s3://" ++ b ++ "/" ++ key)],
             [⟨.video, b, key, none, .ok⟩], .ok ())
        | .clientError =>
            ([(Sev.error, "Failed to upload " ++ localPath ++ " to S3: " ++ env.videoPutErr)],
             [⟨.video, b, key, none, .clientError⟩], .ok ())
      else
        ([], [], .error ("[Errno 2] No such file or directory: " ++ localPath))

/-- Model of `upload_logs` (pipeline.py lines 85-96): a no-op with a
warning when no log bucket is configured; otherwise exactly one
`put_object` under the timestamped key, with `ClientError` caught. -/
def upload_logs (cfg : Config) (env : Env) (content : String) (now : DateTime6) :
    List Event × List PutRec :=
  match cfg.logsBucket with
  | none => ([(Sev.warn, "LOGS_BUCKET not configured, skipping log upload")], [])
  | some b =>
      match env.logPut with
      | .ok =>
          ([(Sev.info, "Logs uploaded to s3://" ++ b ++ "/" ++ logKey now)],
           [⟨.log, b, logKey now, some content, .ok⟩])
      | .clientError =>
          ([(Sev.error, "Failed to upload logs: " ++ env.logPutErr)],
           [⟨.log, b, logKey now, some content, .clientError⟩])

/-- The body of the `try` block of `main` after the fetch/falsy check,
given the already drawn selection result (pipeline.py lines 109-133,
excluding the final success log).  Returns the events, the attempted
puts, and either `()` or the exception text reaching `except`. -/
def afterFetch (cfg : Config) (env : Env) (sel : Option String) :
    List Event × List PutRec × Except String Unit :=
  match sel with
  | none =>
      ((metaStep cfg env).1, (metaStep cfg env).2,
       .error "No video URL found in highlights")
  | some url =>
      let fname := if pathName url = "" then "video.mp4" else pathName url
      let localPath := env.tmpdir ++ "/" ++ fname
      ((metaStep cfg env).1 ++ downloadEvents env url localPath ++
         (videoStep cfg env localPath).1,
       (metaStep cfg env).2 ++ (videoStep cfg env localPath).2.1,
       (videoStep cfg env localPath).2.2)

/-- The `try` block of `main` (pipeline.py lines 103-133, excluding the
final success log and log upload). -/
def mainBody (cfg : Config) (env : Env) (r : Nat) :
    List Event × List PutRec × Except String Unit :=
  let ev0 := (Sev.info, "Starting pipeline for " ++ cfg.league ++ " " ++ cfg.date) ::
             fetchEvents cfg env
  match env.fetchResult with
  | none => (ev0, [], .error "No highlights fetched from API")
  | some h =>
      if falsy h then (ev0, [], .error "No highlights fetched from API")
      else
        (ev0 ++ (afterFetch cfg env (pick_random_video_from_json h r)).1,
         (afterFetch cfg env (pick_random_video_from_json h r)).2.1,
         (afterFetch cfg env (pick_random_video_from_json h r)).2.2)

/-- Model of `main` (pipeline.py lines 100-137): run the body, then on
either branch log the one-line summary and call `upload_logs` exactly
once with it.  The `except Exception` clause catches everything the
body throws, so `main` itself never raises. -/
def main (cfg : Config) (env : Env) (r : Nat) (now : DateTime6) : RunTrace :=
  match (mainBody cfg env r).2.2 with
  | .ok _ =>
      { events := (mainBody cfg env r).1 ++
          [(Sev.info, "Pipeline completed successfully")] ++
          (upload_logs cfg env "Pipeline completed successfully" now).1,
        puts := (mainBody cfg env r).2.1 ++
          (upload_logs cfg env "Pipeline completed successfully" now).2,
        logArg := "Pipeline completed successfully",
        outcome := .success,
        raised := false }
  | .error e =>
      { events := (mainBody cfg env r).1 ++
          [(Sev.error, "Pipeline failed: " ++ e)] ++
          (upload_logs cfg env ("Pipeline failed: " ++ e) now).1,
        puts := (mainBody cfg env r).2.1 ++
          (upload_logs cfg env ("Pipeline failed: " ++ e) now).2,
        logArg := "Pipeline failed: " ++ e,
        outcome := .failure e,
        raised := false }

/-- The candidate the run selects, as a function of the remote responses
and the random draw. -/
def selectedOf (env : Env) (r : Nat) : Option String :=
  match env.fetchResult with
  | some h => pick_random_video_from_json h r
  | none => none

/-- A one-element map document whose single value is a qualifying URL. -/
def oneClipDoc : Doc :=
  Doc.map (DEntries.cons "clip" (Doc.str "http://x/a.mp4") DEntries.nil)

/-- A document whose only qualifying string sits in a sequence, not as a
map value. -/
def seqOnlyDoc : Doc :=
  Doc.seq (DItems.cons (Doc.str "http://x/a.mp4") DItems.nil)

/-! ## Concrete runs used as witnesses and counterexamples -/

def cfgAll : Config :=
  { league := "Superettan", date := "2025-05-01",
    rapidapiHost := "sport-highlights-api.p.rapidapi.com",
    metadataBucket := some "meta-bucket", videosBucket := some "vid-bucket",
    logsBucket := some "log-bucket", region := "ap-south-1" }

def cfgNoVid : Config := { cfgAll with videosBucket := none }

def baseEnv : Env :=
  { fetchResult := some oneClipDoc, fetchErrIsHttp := false, fetchErr := "boom",
    downloadOk := true, downloadErr := "timeout",
    metadataPut := PutOutcome.ok, metaPutErr := "AccessDenied",
    videoPut := PutOutcome.ok, videoPutErr := "AccessDenied",
    logPut := PutOutcome.ok, logPutErr := "AccessDenied",
    metaTmpFile := "/tmp/m.json", tmpdir := "/tmp/d" }

def envMetaFail : Env := { baseEnv with metadataPut := PutOutcome.clientError }

def envDlFail : Env := { baseEnv with downloadOk := false }

/-- A document with two qualifying map values bearing different
filenames. -/
def twoClipDoc : Doc :=
  Doc.map (DEntries.cons "a" (Doc.str "http://x/a.mp4")
    (DEntries.cons "b" (Doc.str "http://x/b.mp4") DEntries.nil))

def envTwo : Env := { baseEnv with fetchResult := some twoClipDoc }

def envFalsy : Env := { baseEnv with fetchResult := some (Doc.map DEntries.nil) }

def nowT : DateTime6 := ⟨2025, 5, 1, 12, 30, 45⟩

/-- Split a character list into newline-separated lines. -/
def splitLinesAux : List Char → List Char → List String
  | [], cur => [String.mk cur.reverse]
  | c :: rest, cur =>
      if c = '\n' then String.mk cur.reverse :: splitLinesAux rest []
      else splitLinesAux rest (c :: cur)

/-- The lines of a log body, in order; a RunLog that captures an event
must list the event message among these. -/
def logLines (s : String) : List String := splitLinesAux s.data []


end Pipeline

namespace MediaConvert

/-! ## The transcode job client (`app/mediaconvert_client.py`)

`submit_job` builds a fixed job description; only the structure the
claims mention is modelled (role, inputs, output groups, containers and
resolutions).  `poll_job` is a `while True` loop; it is replayed with a
fuel that the accompanying theorem proves sufficient, and with modelled
time: the status query at iteration `i` observes elapsed time
`i * interval`, since each loop turn ends in `time.sleep(interval)`. -/

structure VideoDescription where
  width : Nat
  height : Nat
deriving DecidableEq

structure JobOutput where
  container : String
  videoDescription : VideoDescription
deriving DecidableEq

structure OutputGroup where
  name : String
  destination : String
  outputs : List JobOutput
deriving DecidableEq

structure JobSettings where
  role : String
  inputs : List String
  outputGroups : List OutputGroup
deriving DecidableEq

/-- Model of `submit_job` (mediaconvert_client.py lines 15-45): the job
description literal passed to `create_job`. -/
def submit_job (role_arn input_s3 output_s3_prefix : String) : JobSettings :=
  { role := role_arn,
    inputs := [input_s3],
    outputGroups :=
      [{ name := "File Group",
         destination := output_s3_prefix,
         outputs :=
           [{ container := "MP4", videoDescription := { width := 1280, height := 720 } },
            { container := "MP4", videoDescription := { width := 854, height := 480 } }] }] }

/-- The terminal check of the poll loop (mediaconvert_client.py line 52). -/
def isTerminal (s : String) : Bool :=
  s == "COMPLETE" || s == "ERROR" || s == "CANCELED"

/-- One unrolling of the `while True` loop of `poll_job`
(mediaconvert_client.py lines 47-56): query the status, return it if
terminal, otherwise return TIMEOUT once elapsed time exceeds `timeout`,
otherwise sleep `interval` and loop.  `statuses i` is the response of
the i-th `get_job` call; the result carries the status and the elapsed
time at return. -/
def pollAux (statuses : Nat → String) (interval timeout : Nat) :
    Nat → Nat → Option (String × Nat)
  | 0, _ => none
  | fuel+1, i =>
      if isTerminal (statuses i) then some (statuses i, i * interval)
      else if i * interval > timeout then some ("TIMEOUT", i * interval)
      else pollAux statuses interval timeout fuel (i + 1)

/-- Model of `poll_job`: run the loop with fuel `timeout / interval + 2`,
which the termination theorem proves is never exhausted when
`interval` is positive. -/
def poll_job (statuses : Nat → String) (interval timeout : Nat) :
    Option (String × Nat) :=
  pollAux statuses interval timeout (timeout / interval + 2) 0

/-- With positive interval, the fuel `timeout / interval + 2` never runs
out: from query index `i` onwards the loop returns a terminal or
TIMEOUT result whose elapsed time stays below `timeout + interval`. -/
theorem pollAux_total (statuses : Nat → String) (interval timeout : Nat)
    (hpos : 0 < interval) :
    ∀ fuel i, timeout / interval + 2 ≤ fuel + i →
      i * interval ≤ timeout + interval →
      ∃ s t, pollAux statuses interval timeout fuel i = some (s, t) ∧
        (s = "COMPLETE" ∨ s = "ERROR" ∨ s = "CANCELED" ∨ s = "TIMEOUT") ∧
        t ≤ timeout + interval := by
  intro fuel
  induction fuel with
  | zero =>
      intro i hfi hit
      exfalso
      have hq := Nat.div_add_mod timeout interval
      have hm : timeout % interval < interval := Nat.mod_lt _ hpos
      have h3 : (timeout / interval + 2) * interval ≤ i * interval :=
        Nat.mul_le_mul_right _ (by omega)
      have hexp : (timeout / interval + 2) * interval
          = interval * (timeout / interval) + 2 * interval := by ring
      rw [hexp] at h3
      omega
  | succ fuel ih =>
      intro i hfi hit
      simp only [pollAux]
      by_cases hterm : isTerminal (statuses i) = true
      · rw [if_pos hterm]
        refine ⟨statuses i, i * interval, rfl, ?_, hit⟩
        simp only [isTerminal, Bool.or_eq_true, beq_iff_eq] at hterm
        tauto
      · rw [if_neg hterm]
        by_cases htime : i * interval > timeout
        · rw [if_pos htime]
          exact ⟨"TIMEOUT", i * interval, rfl, by tauto, hit⟩
        · rw [if_neg htime]
          have hsucc : (i + 1) * interval = i * interval + interval :=
            Nat.succ_mul i interval
          exact ih (i + 1) (by omega) (by omega)

/-- C3: for every job id, positive interval, arbitrary timeout, and
every (possibly never terminal) sequence of successful status
responses, `poll_job` returns one of COMPLETE, ERROR, CANCELED or
TIMEOUT within elapsed modelled time `timeout + interval`. -/
theorem poll_job_terminates (statuses : Nat → String) (interval timeout : Nat)
    (hpos : 0 < interval) :
    ∃ s t, poll_job statuses interval timeout = some (s, t) ∧
      (s = "COMPLETE" ∨ s = "ERROR" ∨ s = "CANCELED" ∨ s = "TIMEOUT") ∧
      t ≤ timeout + interval := by
  unfold poll_job
  exact pollAux_total statuses interval timeout hpos _ 0 (by omega) (by simp)

/-- Witness for C3: with interval 10 and timeout 30 against a job that
stays PROGRESSING forever, the poll returns a terminal-or-TIMEOUT
status within elapsed time 40, and concretely returns TIMEOUT at 40. -/
theorem poll_job_terminates_witness :
    (0 < 10 ∧
      ∃ s t, poll_job (fun _ => "PROGRESSING") 10 30 = some (s, t) ∧
        (s = "COMPLETE" ∨ s = "ERROR" ∨ s = "CANCELED" ∨ s = "TIMEOUT") ∧
        t ≤ 30 + 10) ∧
    poll_job (fun _ => "PROGRESSING") 10 30 = some ("TIMEOUT", 40) :=
  ⟨⟨by decide, poll_job_terminates (fun _ => "PROGRESSING") 10 30 (by decide)⟩,
   by decide⟩

/-- Counterexample for C9: `submit_job` takes no renditions parameter
and always emits two outputs, so for the requested rendition list
`[(1280, 720)]` (one rendition) the built job does not contain exactly
one output per requested rendition. -/
theorem submit_job_ignores_requested_renditions :
    ((submit_job "role" "s3://in/a.mp4" "s3://out/").outputGroups.map
      (fun g => g.outputs.length)) = [2] ∧
    ([(1280, 720)] : List (Nat × Nat)).length = 1 ∧ (2 : Nat) ≠ 1 := by
  decide

/-- C9 amended: for every role, input and output prefix, the job
description has exactly one input (the given location) and exactly one
output group, whose outputs are exactly one per rendition of the fixed
list 1280x720 and 854x480, each specifying container MP4 and the
resolution only. -/
theorem submit_job_shape (role_arn input_s3 output_s3_prefix : String) :
    (submit_job role_arn input_s3 output_s3_prefix).inputs = [input_s3] ∧
    (submit_job role_arn input_s3 output_s3_prefix).outputGroups.length = 1 ∧
    ((submit_job role_arn input_s3 output_s3_prefix).outputGroups.map
      (fun g => g.outputs)) =
      [[{ container := "MP4", videoDescription := { width := 1280, height := 720 } },
        { container := "MP4", videoDescription := { width := 854, height := 480 } }]] ∧
    (submit_job role_arn input_s3 output_s3_prefix).role = role_arn :=
  ⟨rfl, rfl, rfl, rfl⟩

end MediaConvert

namespace Pipeline

/-! ## Lemmas about the selector -/

theorem sizeD_pos (d : Doc) : 0 < sizeD d := by
  cases d <;> simp [sizeD]

theorem sizeI_pos (its : DItems) : 0 < sizeI its := by
  cases its <;> simp [sizeI]

theorem sizeE_pos (kvs : DEntries) : 0 < sizeE kvs := by
  cases kvs <;> simp [sizeE]

mutual

/-- Multiplicity of a string in the collected candidates equals the
number of its qualifying map-value occurrences. -/
theorem walk_count : ∀ (d : Doc) (s : String), (walk d).count s = qualOcc d s
  | .map kvs, s => by
      simpa [walk, qualOcc] using walkEntries_count kvs s
  | .seq its, s => by
      simpa [walk, qualOcc] using walkItems_count its s
  | .str _, _ => by simp [walk, qualOcc]
  | .num _, _ => by simp [walk, qualOcc]
  | .boolv _, _ => by simp [walk, qualOcc]
  | .null, _ => by simp [walk, qualOcc]

theorem walkItems_count :
    ∀ (its : DItems) (s : String), (walkItems its).count s = qualOccI its s
  | .nil, s => by simp [walkItems, qualOccI]
  | .cons d rest, s => by
      simp [walkItems, qualOccI, List.count_append,
        walk_count d s, walkItems_count rest s]

theorem walkEntries_count :
    ∀ (kvs : DEntries) (s : String), (walkEntries kvs).count s = qualOccE kvs s
  | .nil, s => by simp [walkEntries, qualOccE]
  | .cons k (.str t) rest, s => by
      by_cases hq : qualifies t
      · by_cases ht : t = s
        · subst ht
          simp [walkEntries, qualOccE, hq, walk, qualOcc, List.count_append,
            List.count_cons, walkEntries_count rest t]
          try omega
        · have ht2 : s ≠ t := fun h => ht h.symm
          simp [walkEntries, qualOccE, hq, ht, ht2, walk, qualOcc,
            List.count_append, List.count_cons, walkEntries_count rest s]
          try omega
      · simp [walkEntries, qualOccE, hq, List.count_append,
          walkEntries_count rest s, walk, qualOcc]
  | .cons k (.map kvs) rest, s => by
      simp [walkEntries, qualOccE, List.count_append,
        walk_count (.map kvs) s, walkEntries_count rest s]
  | .cons k (.seq its) rest, s => by
      simp [walkEntries, qualOccE, List.count_append,
        walk_count (.seq its) s, walkEntries_count rest s]
  | .cons k (.num n) rest, s => by
      simp [walkEntries, qualOccE, List.count_append,
        walk_count (.num n) s, walkEntries_count rest s]
  | .cons k (.boolv b) rest, s => by
      simp [walkEntries, qualOccE, List.count_append,
        walk_count (.boolv b) s, walkEntries_count rest s]
  | .cons k .null rest, s => by
      simp [walkEntries, qualOccE, List.count_append,
        walk_count .null s, walkEntries_count rest s]

end

mutual

/-- Fuel `sizeD d` suffices: the fuel-indexed replay of the source walk
never exhausts and returns exactly the collected candidates. -/
theorem walkF_eq : ∀ (d : Doc) (n : Nat), sizeD d ≤ n → walkF n d = some (walk d)
  | d, 0, h => by exfalso; have := sizeD_pos d; omega
  | .map kvs, n+1, h => by
      have hb : sizeE kvs ≤ n := by simp [sizeD] at h; omega
      simpa [walkF, walk] using walkFE_eq kvs n hb
  | .seq its, n+1, h => by
      have hb : sizeI its ≤ n := by simp [sizeD] at h; omega
      simpa [walkF, walk] using walkFI_eq its n hb
  | .str _, _+1, _ => by simp [walkF, walk]
  | .num _, _+1, _ => by simp [walkF, walk]
  | .boolv _, _+1, _ => by simp [walkF, walk]
  | .null, _+1, _ => by simp [walkF, walk]

theorem walkFI_eq :
    ∀ (its : DItems) (n : Nat), sizeI its ≤ n → walkFI n its = some (walkItems its)
  | its, 0, h => by exfalso; have := sizeI_pos its; omega
  | .nil, _+1, _ => by simp [walkFI, walkItems]
  | .cons d rest, n+1, h => by
      have hd : sizeD d ≤ n := by
        have := sizeI_pos rest; simp [sizeI] at h; omega
      have hr : sizeI rest ≤ n := by
        have := sizeD_pos d; simp [sizeI] at h; omega
      simp [walkFI, walkItems, walkF_eq d n hd, walkFI_eq rest n hr]

theorem walkFE_eq :
    ∀ (kvs : DEntries) (n : Nat), sizeE kvs ≤ n → walkFE n kvs = some (walkEntries kvs)
  | kvs, 0, h => by exfalso; have := sizeE_pos kvs; omega
  | .nil, _+1, _ => by simp [walkFE, walkEntries]
  | .cons k (.str t) rest, n+1, h => by
      have hr : sizeE rest ≤ n := by
        have := sizeD_pos (Doc.str t); simp [sizeE] at h; omega
      have hv : sizeD (Doc.str t) ≤ n := by
        have := sizeE_pos rest; simp [sizeE] at h; omega
      by_cases hq : qualifies t
      · simp [walkFE, walkEntries, hq, walkFE_eq rest n hr]
      · simp [walkFE, walkEntries, hq, walkFE_eq rest n hr,
          walkF_eq (Doc.str t) n hv]
  | .cons k (.map kvs) rest, n+1, h => by
      have hv : sizeD (Doc.map kvs) ≤ n := by
        have := sizeE_pos rest; simp [sizeE] at h; omega
      have hr : sizeE rest ≤ n := by
        have := sizeD_pos (Doc.map kvs); simp [sizeE] at h; omega
      simp [walkFE, walkEntries, walkF_eq (Doc.map kvs) n hv, walkFE_eq rest n hr]
  | .cons k (.seq its) rest, n+1, h => by
      have hv : sizeD (Doc.seq its) ≤ n := by
        have := sizeE_pos rest; simp [sizeE] at h; omega
      have hr : sizeE rest ≤ n := by
        have := sizeD_pos (Doc.seq its); simp [sizeE] at h; omega
      simp [walkFE, walkEntries, walkF_eq (Doc.seq its) n hv, walkFE_eq rest n hr]
  | .cons k (.num m) rest, n+1, h => by
      have hv : sizeD (Doc.num m) ≤ n := by
        have := sizeE_pos rest; simp [sizeE] at h; omega
      have hr : sizeE rest ≤ n := by
        have := sizeD_pos (Doc.num m); simp [sizeE] at h; omega
      simp [walkFE, walkEntries, walkF_eq (Doc.num m) n hv, walkFE_eq rest n hr]
  | .cons k (.boolv b) rest, n+1, h => by
      have hv : sizeD (Doc.boolv b) ≤ n := by
        have := sizeE_pos rest; simp [sizeE] at h; omega
      have hr : sizeE rest ≤ n := by
        have := sizeD_pos (Doc.boolv b); simp [sizeE] at h; omega
      simp [walkFE, walkEntries, walkF_eq (Doc.boolv b) n hv, walkFE_eq rest n hr]
  | .cons k .null rest, n+1, h => by
      have hv : sizeD Doc.null ≤ n := by
        have := sizeE_pos rest; simp [sizeE] at h; omega
      have hr : sizeE rest ≤ n := by
        have := sizeD_pos Doc.null; simp [sizeE] at h; omega
      simp [walkFE, walkEntries, walkF_eq Doc.null n hv, walkFE_eq rest n hr]

end

theorem mem_walk_iff_qualOcc_pos (d : Doc) (s : String) :
    s ∈ walk d ↔ 0 < qualOcc d s := by
  rw [← walk_count d s]
  exact List.count_pos_iff.symm

/-- Counterexample for C2: this document contains a qualifying string
(as a sequence element), yet the selector returns None for it, because
the source walk collects qualifying strings only from map-value
position. -/
theorem pick_misses_sequence_string :
    containsQual seqOnlyDoc = true ∧
    pick_random_video_from_json seqOnlyDoc 0 = none := by
  decide

/-- C2 amended: the selector draws from exactly the set of qualifying
strings occurring in map-value position.  If some string occurs as a
qualifying map value, the selector returns such a string for every
random draw; if none does, it returns None. -/
theorem pick_selects_qualifying_map_value (d : Doc) (r : Nat) :
    ((∃ s, 0 < qualOcc d s) →
      ∃ s, pick_random_video_from_json d r = some s ∧ 0 < qualOcc d s) ∧
    ((∀ s, qualOcc d s = 0) → pick_random_video_from_json d r = none) := by
  constructor
  · rintro ⟨s, hs⟩
    have hmem : s ∈ walk d := (mem_walk_iff_qualOcc_pos d s).mpr hs
    have hne : walk d ≠ [] := List.ne_nil_of_mem hmem
    have hlen : 0 < (walk d).length := List.length_pos.mpr hne
    have hmod : r % (walk d).length < (walk d).length := Nat.mod_lt _ hlen
    refine ⟨(walk d).get ⟨r % (walk d).length, hmod⟩, ?_, ?_⟩
    · unfold pick_random_video_from_json
      simp only [List.isEmpty_iff]
      rw [if_neg hne]
      exact List.get?_eq_get hmod
    · exact (mem_walk_iff_qualOcc_pos d _).mp (List.get_mem _ _ _)
  · intro hall
    have hnil : walk d = [] := by
      by_contra hne
      obtain ⟨s, hmem⟩ := List.exists_mem_of_ne_nil _ hne
      have := (mem_walk_iff_qualOcc_pos d s).mp hmem
      have := hall s
      omega
    unfold pick_random_video_from_json
    simp [hnil]

/-- Witness for C2 amended: on a document with exactly one qualifying
map value, the hypotheses hold and the selector returns it. -/
theorem pick_selects_qualifying_map_value_witness :
    (∃ s, 0 < qualOcc oneClipDoc s) ∧
    (∃ s, pick_random_video_from_json oneClipDoc 0 = some s ∧
      0 < qualOcc oneClipDoc s) :=
  ⟨⟨"http://x/a.mp4", by decide⟩,
   (pick_selects_qualifying_map_value oneClipDoc 0).1 ⟨"http://x/a.mp4", by decide⟩⟩

/-- C8: the traversal terminates on every finite document (the fueled
replay of the source walk succeeds with fuel `sizeD d`), and each
qualifying map-value occurrence is appended to the candidate list
exactly once: the multiplicity of every string among the candidates
equals its number of qualifying map-value occurrences, so a string
classified as qualifying is counted once and never traversed again. -/
theorem walk_terminates_and_counts_once (d : Doc) (s : String) (n : Nat)
    (h : sizeD d ≤ n) :
    walkF n d = some (walk d) ∧ (walk d).count s = qualOcc d s :=
  ⟨walkF_eq d n h, walk_count d s⟩

/-! ## Lemmas about path names and timestamps -/

theorem lastSegAux_no_slash :
    ∀ (l cur best : List Char), '/' ∉ cur → '/' ∉ best → '/' ∉ lastSegAux l cur best := by
  intro l
  induction l with
  | nil =>
      intro cur best hc hb
      by_cases hcur : cur = []
      · simpa [lastSegAux, hcur] using hb
      · simpa [lastSegAux, hcur, List.mem_reverse] using hc
  | cons c rest ih =>
      intro cur best hc hb
      by_cases hcs : c = '/'
      · subst hcs
        simp only [lastSegAux, if_pos rfl]
        apply ih
        · simp
        · by_cases hcur : cur = []
          · simpa [hcur] using hb
          · simpa [hcur, List.mem_reverse] using hc
      · simp only [lastSegAux, if_neg hcs]
        apply ih
        · intro hmem
          rcases List.mem_cons.mp hmem with h | h
          · exact hcs h.symm
          · exact hc h
        · exact hb

theorem pathName_no_slash (p : String) : '/' ∉ (pathName p).data :=
  lastSegAux_no_slash p.data [] [] (by simp) (by simp)

theorem lastSegAux_skip :
    ∀ (xs ys cur best : List Char),
      ∃ b, lastSegAux (xs ++ '/' :: ys) cur best = lastSegAux ys [] b := by
  intro xs
  induction xs with
  | nil =>
      intro ys cur best
      exact ⟨if cur = [] then best else cur.reverse, by simp [lastSegAux]⟩
  | cons c rest ih =>
      intro ys cur best
      by_cases hcs : c = '/'
      · subst hcs
        simpa [lastSegAux] using ih ys [] (if cur = [] then best else cur.reverse)
      · simpa [lastSegAux, hcs] using ih ys (c :: cur) best

theorem lastSegAux_no_slash_run :
    ∀ (ys cur best : List Char), ys ≠ [] → '/' ∉ ys →
      lastSegAux ys cur best = cur.reverse ++ ys := by
  intro ys
  induction ys with
  | nil => intro cur best hne; exact absurd rfl hne
  | cons c rest ih =>
      intro cur best _ hns
      have hcs : ¬ c = '/' := by
        intro h; exact hns (by simp [h])
      have hrest : '/' ∉ rest := by
        intro h; exact hns (List.mem_cons_of_mem _ h)
      simp only [lastSegAux, if_neg hcs]
      by_cases hrnil : rest = []
      · subst hrnil; simp [lastSegAux]
      · rw [ih (c :: cur) best hrnil hrest]
        simp

/-- `Path(t + "/" + f).name = f` whenever `f` is a non-empty final
segment without slashes; this identifies the filename in the video key
with the filename derived from the selected URL. -/
theorem pathName_append (t f : String) (hne : f ≠ "") (hns : '/' ∉ f.data) :
    pathName (t ++ "/" ++ f) = f := by
  have hfne : f.data ≠ [] := by
    intro h
    apply hne
    cases f with
    | mk d => simp at h; simp [h]
  unfold pathName
  have hdata : (t ++ "/" ++ f).data = t.data ++ '/' :: f.data := by
    simp [String.data_append]
  rw [hdata]
  obtain ⟨b, hb⟩ := lastSegAux_skip t.data f.data [] []
  rw [hb, lastSegAux_no_slash_run f.data [] b hfne hns]
  simp

theorem digitChar_isDigit (d : Nat) (h : d < 10) : (Nat.digitChar d).isDigit = true := by
  interval_cases d <;> decide

/-- The formatted timestamp always matches `YYYYMMDD_HHMMSS`: eight
digits, an underscore, six digits. -/
theorem fmtTS_shape (t : DateTime6) :
    ∃ a b : List Char, (fmtTS t).data = a ++ '_' :: b ∧
      a.length = 8 ∧ b.length = 6 ∧
      (∀ c ∈ a, c.isDigit = true) ∧ (∀ c ∈ b, c.isDigit = true) := by
  refine ⟨(pad4 t.year).data ++ (pad2 t.month).data ++ (pad2 t.day).data,
          (pad2 t.hour).data ++ (pad2 t.minute).data ++ (pad2 t.second).data,
          ?_, ?_, ?_, ?_, ?_⟩
  · simp [fmtTS, pad4, pad2, String.data_append]
  · simp [pad4, pad2]
  · simp [pad2]
  · intro c hc
    simp [pad4, pad2] at hc
    rcases hc with h | h | h | h | h | h | h | h <;> subst h <;>
      exact digitChar_isDigit _ (Nat.mod_lt _ (by decide))
  · intro c hc
    simp [pad2] at hc
    rcases hc with h | h | h | h | h | h <;> subst h <;>
      exact digitChar_isDigit _ (Nat.mod_lt _ (by decide))

/-- Witness for C8 on a concrete nested document. -/
theorem walk_terminates_and_counts_once_witness :
    sizeD oneClipDoc ≤ 5 ∧
    (walkF 5 oneClipDoc = some (walk oneClipDoc) ∧
      (walk oneClipDoc).count "http://x/a.mp4" = qualOcc oneClipDoc "http://x/a.mp4") :=
  ⟨by decide, walk_terminates_and_counts_once oneClipDoc "http://x/a.mp4" 5 (by decide)⟩

/-! ## Lemmas about the orchestrator steps -/

theorem metaStep_kind (cfg : Config) (env : Env) :
    ∀ p ∈ (metaStep cfg env).2, p.kind = PutKind.metadata := by
  cases hb : cfg.metadataBucket <;> cases hp : env.metadataPut <;>
    simp [metaStep, hb, hp]

theorem videoStep_kind (cfg : Config) (env : Env) (localPath : String) :
    ∀ p ∈ (videoStep cfg env localPath).2.1, p.kind = PutKind.video := by
  cases hb : cfg.videosBucket <;> cases hd : env.downloadOk <;>
    cases hp : env.videoPut <;> simp [videoStep, hb, hd, hp]

theorem afterFetch_no_log (cfg : Config) (env : Env) (sel : Option String) :
    ∀ p ∈ (afterFetch cfg env sel).2.1, p.kind ≠ PutKind.log := by
  intro p hp hlog
  cases sel with
  | none =>
      have hk := metaStep_kind cfg env p (by simpa [afterFetch] using hp)
      simp [hk] at hlog
  | some url =>
      simp only [afterFetch] at hp
      rcases List.mem_append.mp hp with h | h
      · have hk := metaStep_kind cfg env p h
        simp [hk] at hlog
      · have hk := videoStep_kind cfg env _ p h
        simp [hk] at hlog

theorem mainBody_no_log (cfg : Config) (env : Env) (r : Nat) :
    ∀ p ∈ (mainBody cfg env r).2.1, p.kind ≠ PutKind.log := by
  intro p hp
  cases hf : env.fetchResult with
  | none => simp [mainBody, hf] at hp
  | some h =>
      by_cases hfl : falsy h
      · simp [mainBody, hf, hfl] at hp
      · simp only [mainBody, hf] at hp
        simp [hfl] at hp
        exact afterFetch_no_log cfg env _ p hp

theorem upload_logs_puts (cfg : Config) (env : Env) (content : String) (now : DateTime6) :
    (upload_logs cfg env content now).2 =
      match cfg.logsBucket with
      | none => []
      | some b => [⟨PutKind.log, b, logKey now, some content, env.logPut⟩] := by
  cases hb : cfg.logsBucket <;> cases hp : env.logPut <;> simp [upload_logs, hb, hp]

/-- C1: whatever branch the run takes, `main` issues exactly one log
put when a log bucket is configured and none otherwise; exactly one log
object is persisted when that put succeeds; a log persistence failure is
swallowed and `main` never raises. -/
theorem run_persists_log_exactly_once (cfg : Config) (env : Env) (r : Nat) (now : DateTime6) :
    (((main cfg env r now).puts.filter fun p => p.kind == PutKind.log).length =
      if cfg.logsBucket.isSome then 1 else 0) ∧
    (((main cfg env r now).puts.filter fun p =>
        p.kind == PutKind.log && p.outcome == PutOutcome.ok).length =
      if cfg.logsBucket.isSome ∧ env.logPut = PutOutcome.ok then 1 else 0) ∧
    (main cfg env r now).raised = false := by
  have h1 : ((mainBody cfg env r).2.1.filter fun p => p.kind == PutKind.log) = [] := by
    rw [List.filter_eq_nil_iff]
    intro p hp
    simp [mainBody_no_log cfg env r p hp]
  have h2 : ((mainBody cfg env r).2.1.filter fun p =>
      p.kind == PutKind.log && p.outcome == PutOutcome.ok) = [] := by
    rw [List.filter_eq_nil_iff]
    intro p hp
    simp [mainBody_no_log cfg env r p hp]
  refine ⟨?_, ?_, ?_⟩
  · unfold main
    split <;>
      (simp only [List.filter_append, h1, List.nil_append]
       cases hb : cfg.logsBucket <;> cases hp : env.logPut <;>
         simp [upload_logs, hb, hp])
  · unfold main
    split <;>
      (simp only [List.filter_append, h2, List.nil_append]
       cases hb : cfg.logsBucket <;> cases hp : env.logPut <;>
         simp [upload_logs, hb, hp])
  · unfold main
    split <;> rfl

/-! ## Remaining orchestrator claims -/

/-- C4 evidence: when the download fails and no video bucket is
configured, the run logs the download error yet still takes the
success branch, so it is reported as a success, contradicting the
stated policy that a failed download marks the run FAILURE. -/
theorem download_failure_reported_success :
    envDlFail.downloadOk = false ∧
    cfgNoVid.videosBucket = none ∧
    (main cfgNoVid envDlFail 0 nowT).outcome = RunOutcome.success ∧
    (Sev.error, "Failed to download video: timeout") ∈
      (main cfgNoVid envDlFail 0 nowT).events := by
  decide

/-- Counterexample for C5: a run in which an advisory error event was
logged (a metadata upload failure) while the persisted log content is
the bare success summary, which does not contain that event. -/
theorem log_object_omits_advisory_events :
    (Sev.error, "Failed to upload /tmp/m.json to S3: AccessDenied") ∈
      (main cfgAll envMetaFail 0 nowT).events ∧
    "Failed to upload /tmp/m.json to S3: AccessDenied" ∉
      logLines (main cfgAll envMetaFail 0 nowT).logArg := by
  decide

/-- C5 amended: the log object handed to finalization is exactly a
one-line summary of the final branch, never the accumulated event
log. -/
theorem log_object_is_one_line_summary (cfg : Config) (env : Env) (r : Nat) (now : DateTime6) :
    (main cfg env r now).logArg =
      (match (main cfg env r now).outcome with
       | RunOutcome.success => "Pipeline completed successfully"
       | RunOutcome.failure e => "Pipeline failed: " ++ e) := by
  unfold main
  split <;> rfl

/-- C10: a fetch that succeeds with a falsy document aborts the run
with the same fatal reason as a fetch failure, before any persistence
or selection: no metadata or video object is written and only the one
log put is attempted. -/
theorem empty_document_aborts_run (cfg : Config) (env : Env) (r : Nat) (now : DateTime6)
    (d : Doc) (hf : env.fetchResult = some d) (hfl : falsy d = true) :
    (main cfg env r now).outcome = RunOutcome.failure "No highlights fetched from API" ∧
    (∀ p ∈ (main cfg env r now).puts, p.kind = PutKind.log) ∧
    (((main cfg env r now).puts.filter fun p => p.kind == PutKind.log).length =
      if cfg.logsBucket.isSome then 1 else 0) := by
  have hres : (mainBody cfg env r).2.2 = Except.error "No highlights fetched from API" := by
    simp [mainBody, hf, hfl]
  have hputs : (mainBody cfg env r).2.1 = [] := by
    simp [mainBody, hf, hfl]
  refine ⟨?_, ?_, ?_⟩
  · simp [main, hres]
  · intro p hp
    simp only [main, hres] at hp
    simp only [hputs, List.nil_append] at hp
    rw [upload_logs_puts] at hp
    cases hb : cfg.logsBucket with
    | none => rw [hb] at hp; simp at hp
    | some b =>
        rw [hb] at hp
        simp at hp
        simp [hp]
  · simp only [main, hres]
    simp only [hputs, List.nil_append]
    cases hb : cfg.logsBucket <;> cases hp : env.logPut <;>
      simp [upload_logs, hb, hp]

/-- Witness for C10 at the empty-map document. -/
theorem empty_document_aborts_run_witness :
    (envFalsy.fetchResult = some (Doc.map DEntries.nil) ∧
      falsy (Doc.map DEntries.nil) = true) ∧
    ((main cfgAll envFalsy 0 nowT).outcome =
        RunOutcome.failure "No highlights fetched from API" ∧
      (∀ p ∈ (main cfgAll envFalsy 0 nowT).puts, p.kind = PutKind.log) ∧
      (((main cfgAll envFalsy 0 nowT).puts.filter fun p =>
          p.kind == PutKind.log).length =
        if cfgAll.logsBucket.isSome then 1 else 0)) :=
  ⟨⟨rfl, by decide⟩,
   empty_document_aborts_run cfgAll envFalsy 0 nowT (Doc.map DEntries.nil) rfl (by decide)⟩

/-- C6: on a run that reaches every step (fetch succeeded with a truthy
document, a candidate was selected, all three buckets are configured,
the download succeeded), the object keys produced are exactly the
metadata key `highlights/league/date/highlights.json`, the video key
`incoming/league/date/filename` with the filename derived from the
selected URL, and a log key of the shape
`pipeline_log_YYYYMMDD_HHMMSS.txt` (eight digits, underscore, six
digits). -/
theorem produced_keys_layout (cfg : Config) (env : Env) (r : Nat) (now : DateTime6)
    (d : Doc) (url mb vb lb : String)
    (hfetch : env.fetchResult = some d)
    (hfalsy : falsy d = false)
    (hmb : cfg.metadataBucket = some mb)
    (hvb : cfg.videosBucket = some vb)
    (hlb : cfg.logsBucket = some lb)
    (hpick : pick_random_video_from_json d r = some url)
    (hdl : env.downloadOk = true) :
    (main cfg env r now).puts.map (fun p => (p.bucket, p.key)) =
      [(mb, "highlights/" ++ cfg.league ++ "/" ++ cfg.date ++ "/highlights.json"),
       (vb, "incoming/" ++ cfg.league ++ "/" ++ cfg.date ++ "/" ++
          (if pathName url = "" then "video.mp4" else pathName url)),
       (lb, "pipeline_log_" ++ fmtTS now ++ ".txt")] ∧
    (∃ a b : List Char, (fmtTS now).data = a ++ '_' :: b ∧
      a.length = 8 ∧ b.length = 6 ∧
      (∀ c ∈ a, c.isDigit = true) ∧ (∀ c ∈ b, c.isDigit = true)) := by
  refine ⟨?_, fmtTS_shape now⟩
  have hFne : (if pathName url = "" then "video.mp4" else pathName url) ≠ "" := by
    by_cases hnil : pathName url = "" <;> simp [hnil]
  have hFns : '/' ∉ (if pathName url = "" then "video.mp4" else pathName url).data := by
    by_cases hnil : pathName url = ""
    · simp only [hnil, if_pos rfl]
      decide
    · simp only [hnil, if_neg hnil]
      exact pathName_no_slash url
  have hpn : pathName (env.tmpdir ++ "/" ++
      (if pathName url = "" then "video.mp4" else pathName url)) =
      (if pathName url = "" then "video.mp4" else pathName url) :=
    pathName_append _ _ hFne hFns
  have hmeta : (metaStep cfg env).2 =
      [⟨PutKind.metadata, mb, metaKey cfg, none, env.metadataPut⟩] := by
    cases hp : env.metadataPut <;> simp [metaStep, hmb, hp]
  have hvid1 : (videoStep cfg env (env.tmpdir ++ "/" ++
      (if pathName url = "" then "video.mp4" else pathName url))).2.1 =
      [⟨PutKind.video, vb,
        videoKeyOf cfg (if pathName url = "" then "video.mp4" else pathName url),
        none, env.videoPut⟩] := by
    cases hp : env.videoPut <;> simp [videoStep, hvb, hdl, hp, hpn]
  have hvid2 : (videoStep cfg env (env.tmpdir ++ "/" ++
      (if pathName url = "" then "video.mp4" else pathName url))).2.2 =
      Except.ok () := by
    cases hp : env.videoPut <;> simp [videoStep, hvb, hdl, hp]
  have haf1 : (afterFetch cfg env (some url)).2.1 =
      [⟨PutKind.metadata, mb, metaKey cfg, none, env.metadataPut⟩,
       ⟨PutKind.video, vb,
         videoKeyOf cfg (if pathName url = "" then "video.mp4" else pathName url),
         none, env.videoPut⟩] := by
    simp only [afterFetch]
    rw [hmeta, hvid1]
    rfl
  have haf2 : (afterFetch cfg env (some url)).2.2 = Except.ok () := by
    simp only [afterFetch]
    exact hvid2
  have hb1 : (mainBody cfg env r).2.1 =
      [⟨PutKind.metadata, mb, metaKey cfg, none, env.metadataPut⟩,
       ⟨PutKind.video, vb,
         videoKeyOf cfg (if pathName url = "" then "video.mp4" else pathName url),
         none, env.videoPut⟩] := by
    simp only [mainBody, hfetch]
    simp only [hfalsy, Bool.false_eq_true, if_false]
    rw [hpick, haf1]
  have hb2 : (mainBody cfg env r).2.2 = Except.ok () := by
    simp only [mainBody, hfetch]
    simp only [hfalsy, Bool.false_eq_true, if_false]
    rw [hpick, haf2]
  simp only [main, hb2]
  simp only [hb1, upload_logs_puts, hlb]
  simp [metaKey, videoKeyOf, logKey]

/-- Witness for C6 on a fully concrete run. -/
theorem produced_keys_layout_witness :
    (baseEnv.fetchResult = some oneClipDoc ∧ falsy oneClipDoc = false ∧
      pick_random_video_from_json oneClipDoc 0 = some "http://x/a.mp4" ∧
      baseEnv.downloadOk = true) ∧
    ((main cfgAll baseEnv 0 nowT).puts.map (fun p => (p.bucket, p.key)) =
      [("meta-bucket", "highlights/" ++ cfgAll.league ++ "/" ++ cfgAll.date ++
          "/highlights.json"),
       ("vid-bucket", "incoming/" ++ cfgAll.league ++ "/" ++ cfgAll.date ++ "/" ++
          (if pathName "http://x/a.mp4" = "" then "video.mp4"
           else pathName "http://x/a.mp4")),
       ("log-bucket", "pipeline_log_" ++ fmtTS nowT ++ ".txt")] ∧
     (∃ a b : List Char, (fmtTS nowT).data = a ++ '_' :: b ∧
       a.length = 8 ∧ b.length = 6 ∧
       (∀ c ∈ a, c.isDigit = true) ∧ (∀ c ∈ b, c.isDigit = true))) :=
  ⟨⟨rfl, by decide, by decide, rfl⟩,
   produced_keys_layout cfgAll baseEnv 0 nowT oneClipDoc "http://x/a.mp4"
     "meta-bucket" "vid-bucket" "log-bucket" rfl (by decide) rfl rfl rfl
     (by decide) rfl⟩

/-- Counterexample for C7: two runs with identical RunContext and
identical remote responses but different random draws produce different
video keys, because the video key embeds the randomly selected
filename. -/
theorem rerun_key_layout_differs :
    (main cfgAll envTwo 0 nowT).puts.map (fun p => (p.bucket, p.key)) ≠
    (main cfgAll envTwo 1 nowT).puts.map (fun p => (p.bucket, p.key)) := by
  decide

/-- C7 amended: with identical RunContext, identical remote responses,
an identical selected candidate, and an identical finalization clock
reading, re-running produces the identical trace, in particular
identical object-storage keys. -/
theorem keys_deterministic_given_selection (cfg : Config) (env : Env)
    (r₁ r₂ : Nat) (now : DateTime6)
    (hsel : selectedOf env r₁ = selectedOf env r₂) :
    main cfg env r₁ now = main cfg env r₂ now := by
  have hb : mainBody cfg env r₁ = mainBody cfg env r₂ := by
    unfold mainBody
    cases hf : env.fetchResult with
    | none => rfl
    | some d =>
        simp only [selectedOf, hf] at hsel
        simp [hsel]
  unfold main
  rw [hb]

/-- Witness for C7 amended: draws 0 and 2 select the same candidate out
of two, and the traces coincide. -/
theorem keys_deterministic_given_selection_witness :
    selectedOf envTwo 0 = selectedOf envTwo 2 ∧
    main cfgAll envTwo 0 nowT = main cfgAll envTwo 2 nowT :=
  ⟨by decide, keys_deterministic_given_selection cfgAll envTwo 0 2 nowT (by decide)⟩

end Pipeline
